import Mathlib

/-!
# Route Graph Builder — shallow embedding

A shallow embedding of the route-graph builder
(`libosmscout-import/src/osmscout/import/GenRouteDat.cpp`) and of the node-id
serialization of `libosmscout/src/osmscout/Way.cpp`, together with theorems
settling the specification claims.

Modelling conventions:
* machine integers (`Id`, counters, indices) are `Nat`;
* `double` coordinates are stand-in `Int` values, and the external
  `GetSphericalDistance` (declared in `osmscout/util/Geometry.h`, outside
  the sources) is an arbitrary parameter `gd : Point → Point → Int` —
  no claim constrains the numeric value of a distance;
* `std::map`/`std::set` lookups are modelled either as association lists
  (in iteration order) or as functions with an "absent" default, whichever
  the surrounding code observes.
-/

namespace Osmscout

/-- A point of a way: node id plus coordinates
(`Point` in the C++ sources; coordinates are stand-ins for `double`). -/
structure Point where
  id : Nat
  lat : Int
  lon : Int
  deriving Repr, DecidableEq, Inhabited

/-- The type configuration, reduced to the queries `GenRouteDat.cpp`
makes of it: the `typeIgnore` constant, `TypeInfo::GetIgnore()` and
`TypeInfo::CanBeRoute()`. -/
structure TypeConfig where
  typeIgnore : Nat
  getIgnore : Nat → Bool
  canBeRoute : Nat → Bool

/-- A way as consumed by the route generator: id, type, the attribute
bits the generator reads (`IsArea`, `IsOneway`, `HasAccess`), `maxSpeed`,
and the ordered node list. -/
structure GenWay where
  id : Nat
  typ : Nat
  area : Bool
  oneway : Bool
  hasAccess : Bool
  maxSpeed : Nat
  nodes : List Point
  deriving Repr, DecidableEq, Inhabited

/-- `Restriction::type` values; `forbit` is the spelling used in the source. -/
inductive RestrictionType where
  | allow : RestrictionType
  | forbit : RestrictionType
  deriving Repr, DecidableEq

/-- A turn restriction: the `from` way, the `to` way, and the kind
(`Restriction` in `GenRouteDat.h`; the via node is the map key). -/
structure Restriction where
  rtype : RestrictionType
  rfrom : Nat
  rto : Nat
  deriving Repr, DecidableEq

/-- Loop body of `RouteDataGenerator::CanTurn` (GenRouteDat.cpp:177-198):
walk the restriction vector carrying `defaultReturn`, with the two early
returns of the C++ loop. -/
def canTurnLoop (src dst : Nat) : List Restriction → Bool → Bool
  | [], dflt => dflt
  | r :: rest, dflt =>
    if r.rfrom = src then
      match r.rtype with
      | .allow => if r.rto = dst then true else canTurnLoop src dst rest false
      | .forbit => if r.rto = dst then false else canTurnLoop src dst rest true
    else
      canTurnLoop src dst rest dflt

/-- `RouteDataGenerator::CanTurn` (GenRouteDat.cpp:167-202): empty
restriction list allows everything, otherwise scan with initial
`defaultReturn = true`. -/
def CanTurn (restrictions : List Restriction) (src dst : Nat) : Bool :=
  if restrictions.isEmpty then true
  else canTurnLoop src dst restrictions true

/-! ## ReadRestrictionRelations (GenRouteDat.cpp:58-165) -/

/-- `RawRelation::MemberType`. -/
inductive MemberType where
  | node : MemberType
  | way : MemberType
  | relationM : MemberType
  deriving Repr, DecidableEq

/-- A relation member: kind, id and role string. -/
structure RelMember where
  mtype : MemberType
  id : Nat
  role : String
  deriving Repr, DecidableEq

/-- A raw relation: its type id and member list. -/
structure RawRelation where
  rtype : Nat
  members : List RelMember
  deriving Repr, DecidableEq

/-- Test of GenRouteDat.cpp:137-138: way member with role `from`. -/
def isFromM (m : RelMember) : Bool :=
  decide (m.mtype = .way ∧ m.role = "from")

/-- Test of GenRouteDat.cpp:141-142: node member with role `via`. -/
def isViaM (m : RelMember) : Bool :=
  decide (m.mtype = .node ∧ m.role = "via")

/-- Test of GenRouteDat.cpp:145-146: way member with role `to`. -/
def isToM (m : RelMember) : Bool :=
  decide (m.mtype = .way ∧ m.role = "to")

/-- The member scan of GenRouteDat.cpp:136-149: walk the members in order,
each matching member overwriting its slot `(from, via, to)`. The slots
start at 0 (`via` is explicitly zero-initialised; the completeness test
`restriction.from != 0 && ... && restriction.to != 0` presupposes the
same for `from` and `to`). -/
def scanMembers (members : List RelMember) : Nat × Nat × Nat :=
  members.foldl
    (fun acc m =>
      if isFromM m then (m.id, acc.2.1, acc.2.2)
      else if isViaM m then (acc.1, m.id, acc.2.2)
      else if isToM m then (acc.1, acc.2.1, m.id)
      else acc)
    (0, 0, 0)

/-- Handling of one recognised relation (GenRouteDat.cpp:121-154):
classify by the positive/negative restriction type sets, scan members,
and produce the keyed restriction only when all three slots are
non-zero. -/
def processRelation (posR negR : Nat → Bool) (rel : RawRelation) :
    Option (Nat × Restriction) :=
  if posR rel.rtype || negR rel.rtype then
    let rt : RestrictionType := if posR rel.rtype then .allow else .forbit
    let s := scanMembers rel.members
    if s.1 ≠ 0 ∧ s.2.1 ≠ 0 ∧ s.2.2 ≠ 0 then
      some (s.2.1, ⟨rt, s.1, s.2.2⟩)
    else
      none
  else
    none

/-- The id carried by the last member matching `p`, or 0 when none does
(specification-side description of a last-write-wins slot). -/
def lastMatchId (p : RelMember → Bool) (members : List RelMember) : Nat :=
  match (members.filter p).getLast? with
  | some m => m.id
  | none => 0

/-! ## ReadJunctions (GenRouteDat.cpp:204-281) -/

/-- The routability filter of GenRouteDat.cpp:240-250 (identical at
GenRouteDat.cpp:319-329): a way is processed iff its type is not
`typeIgnore`, not configured as ignored, and can be routed. -/
def isRoutable (tc : TypeConfig) (w : GenWay) : Bool :=
  !(w.typ == tc.typeIgnore) && !tc.getIgnore w.typ && tc.canBeRoute w.typ

/-- One way's contribution to `nodeWayCountMap` (GenRouteDat.cpp:252-263):
every node appearance increments the count of its id. The `std::map` is
modelled as a total function with default 0: a key is absent iff its
count is 0, and the code only observes the map through the final `>= 2`
filter, for which absent and 0 agree. -/
def countWayNodes (m : Nat → Nat) (nodes : List Point) : Nat → Nat :=
  nodes.foldl (fun m p => fun nid => if nid = p.id then m nid + 1 else m nid) m

/-- The count map built by the way scan of GenRouteDat.cpp:226-264. -/
def junctionCountMap (tc : TypeConfig) (ways : List GenWay) : Nat → Nat :=
  ways.foldl (fun m w => if isRoutable tc w then countWayNodes m w.nodes else m)
    (fun _ => 0)

/-- GenRouteDat.cpp:271-278: the emitted junction set is every node id
whose count reached at least 2. -/
def readJunctions (tc : TypeConfig) (ways : List GenWay) (nid : Nat) : Bool :=
  2 ≤ junctionCountMap tc ways nid

/-- Specification-side count: the total number of appearances of `nid`
over all routable ways, one per appearance, duplicates within a single
way included. -/
def specUseCount (tc : TypeConfig) (ways : List GenWay) (nid : Nat) : Nat :=
  ((ways.filter (isRoutable tc)).map
    (fun w => (w.nodes.filter (fun p => p.id == nid)).length)).sum

/-! ## ReadWayEndpoints (GenRouteDat.cpp:283-346) -/

/-- The endpoint collection (GenRouteDat.cpp:331-337): for every routable
way, each node whose id is a junction appends the way id to that node's
list. Modelled as a total function with default `[]`; a key is absent
iff its list is empty. -/
def readWayEndpoints (tc : TypeConfig) (junctions : Nat → Bool)
    (ways : List GenWay) : Nat → List Nat :=
  ways.foldl
    (fun m w =>
      if isRoutable tc w then
        w.nodes.foldl
          (fun m p =>
            if junctions p.id then
              fun nid => if nid = p.id then m nid ++ [w.id] else m nid
            else m)
          m
      else m)
    (fun _ => [])

/-! ## The route node builder (GenRouteDat.cpp:395-918) -/

/-- An outgoing edge of a route node (`RouteNode::Path`). -/
structure Path where
  id : Nat
  wayIndex : Nat
  typ : Nat
  maxSpeed : Nat
  flags : Nat
  lat : Int
  lon : Int
  distance : Int
  deriving Repr, DecidableEq, Inhabited

/-- A denied turn (`RouteNode::Exclude`). -/
structure Exclude where
  sourceWay : Nat
  targetPath : Nat
  deriving Repr, DecidableEq, Inhabited

/-- The output graph vertex (`RouteNode`). -/
structure RouteNode where
  id : Nat
  ways : List Nat
  paths : List Path
  excludes : List Exclude
  deriving Repr, DecidableEq, Inhabited

/-- `CopyFlags` (GenRouteDat.cpp:41-50): the access bit
(`RouteNode::hasAccess`, modelled as 1). -/
def copyFlags (way : GenWay) : Nat :=
  if way.hasAccess then 1 else 0

/-- `way->nodes[i]`: vector indexing; every access made by the modelled
code is in-bounds, so the `getD` default is never consulted there. -/
def nget (nodes : List Point) (i : Nat) : Point :=
  nodes.getD i default

/-- The path record filled by every emission site
(e.g. GenRouteDat.cpp:617-628): neighbour node id and coordinates, the
way's attributes, the index of the way inside `routeNode.ways`, and the
accumulated distance. -/
def mkPath (way : GenWay) (wayIndex : Nat) (p : Point) (distance : Int) : Path :=
  { id := p.id, wayIndex := wayIndex, typ := way.typ,
    maxSpeed := way.maxSpeed, flags := copyFlags way,
    lat := p.lat, lon := p.lon, distance := distance }

/-- The index search of GenRouteDat.cpp:578-586: first index of the way's
node list carrying the junction id (the code asserts one exists;
`findIdx` returns the length when there is none). -/
def findNodeIdx (nodes : List Point) (nodeId : Nat) : Nat :=
  nodes.findIdx (fun p => p.id == nodeId)

/-- The forward wrap-around walk of the ring branches
(GenRouteDat.cpp:599-614 and the identical GenRouteDat.cpp:698-713): step
`nextNode` forward (mod `n`) until it returns to `currentNode` or reaches
a node present in `nodeWayMap`, accumulating segment distances. The fuel
(passed as `nodes.length`) only bounds the recursion: the walk steps
through distinct indices, so at most `n - 1` iterations run and the fuel
is never exhausted. -/
def ringFwdLoop (nwm : Nat → Bool) (gd : Point → Point → Int)
    (nodes : List Point) (currentNode : Nat) :
    Nat → Nat → Int → Nat × Int
  | 0, nextNode, distance => (nextNode, distance)
  | fuel + 1, nextNode, distance =>
    if nextNode ≠ currentNode ∧ ¬ nwm (nget nodes nextNode).id then
      let lastNode := nextNode
      let nextNode' := if nextNode + 1 ≥ nodes.length then 0 else nextNode + 1
      let distance' :=
        if nextNode' ≠ currentNode then
          distance + gd (nget nodes lastNode) (nget nodes nextNode')
        else distance
      ringFwdLoop nwm gd nodes currentNode fuel nextNode' distance'
    else (nextNode, distance)

/-- The backward wrap-around walk (GenRouteDat.cpp:642-657 and the
identical GenRouteDat.cpp:742-757): step `prevNode` backward (mod `n`)
until it returns to `currentNode` or reaches a node present in
`nodeWayMap`. -/
def ringBwdLoop (nwm : Nat → Bool) (gd : Point → Point → Int)
    (nodes : List Point) (currentNode : Nat) :
    Nat → Nat → Int → Nat × Int
  | 0, prevNode, distance => (prevNode, distance)
  | fuel + 1, prevNode, distance =>
    if prevNode ≠ currentNode ∧ ¬ nwm (nget nodes prevNode).id then
      let lastNode := prevNode
      let prevNode' := if prevNode = 0 then nodes.length - 1 else prevNode - 1
      let distance' :=
        if prevNode' ≠ currentNode then
          distance + gd (nget nodes lastNode) (nget nodes prevNode')
        else distance
      ringBwdLoop nwm gd nodes currentNode fuel prevNode' distance'
    else (prevNode, distance)

/-- Paths emitted for a junction on a ring-shaped way: the shared body of
the area branch (GenRouteDat.cpp:577-674, `allowBackward = true`) and the
closed-non-area branch (GenRouteDat.cpp:676-775,
`allowBackward = !way.oneway`); the two C++ branches are textual
duplicates except for the `IsOneway` guard around the backward half. -/
def ringPaths (nwm : Nat → Bool) (gd : Point → Point → Int) (way : GenWay)
    (nodeId : Nat) (wayIndex : Nat) (allowBackward : Bool) : List Path :=
  let nodes := way.nodes
  let n := nodes.length
  let currentNode := findNodeIdx nodes nodeId
  let nextNode0 := if currentNode + 1 ≥ n then 0 else currentNode + 1
  let d0 := gd (nget nodes currentNode) (nget nodes nextNode0)
  let fwd := ringFwdLoop nwm gd nodes currentNode n nextNode0 d0
  let fwdPaths :=
    if fwd.1 ≠ currentNode then
      [mkPath way wayIndex (nget nodes fwd.1) fwd.2]
    else []
  let bwdPaths :=
    if allowBackward then
      let prevNode0 := if currentNode = 0 then n - 1 else currentNode - 1
      let e0 := gd (nget nodes currentNode) (nget nodes prevNode0)
      let bwd := ringBwdLoop nwm gd nodes currentNode n prevNode0 e0
      if bwd.1 ≠ currentNode ∧ bwd.1 ≠ fwd.1 then
        [mkPath way wayIndex (nget nodes bwd.1) bwd.2]
      else []
    else []
  fwdPaths ++ bwdPaths

/-- The backward junction scan of the open-way branch
(GenRouteDat.cpp:781-789): from the given index downward to 0, the first
index whose node id is in `nodeWayMap`. -/
def scanBwd (nwm : Nat → Bool) (nodes : List Point) : Nat → Option Nat
  | 0 => if nwm (nget nodes 0).id then some 0 else none
  | j + 1 =>
    if nwm (nget nodes (j + 1)).id then some (j + 1) else scanBwd nwm nodes j

/-- The forward junction scan of the open-way branch
(GenRouteDat.cpp:815-823): from index `j` upward while `j < n`, the first
index whose node id is in `nodeWayMap`. The fuel (`n - j` at every call
site) counts the remaining candidates exactly. -/
def scanFwd (nwm : Nat → Bool) (nodes : List Point) : Nat → Nat → Option Nat
  | 0, _ => none
  | fuel + 1, j =>
    if j < nodes.length then
      if nwm (nget nodes j).id then some j else scanFwd nwm nodes fuel (j + 1)
    else none

/-- Distance accumulation of GenRouteDat.cpp:802-808 (and 836-842): the
sum of the segment distances `nodes[d] → nodes[d+1]` for `d ∈ [a, b)`. -/
def segDistance (gd : Point → Point → Int) (nodes : List Point)
    (a b : Nat) : Int :=
  ((List.range (b - a)).map
    (fun k => gd (nget nodes (a + k)) (nget nodes (a + k + 1)))).sum

/-- The open-way ("normal way routing") branch of
GenRouteDat.cpp:777-849: at every position `i` carrying the junction id,
emit a backward path (only for `i > 0` on a non-oneway) to the nearest
junction below `i`, then a forward path (only for `i + 1 < n`) to the
nearest junction above `i`. -/
def normalPaths (nwm : Nat → Bool) (gd : Point → Point → Int) (way : GenWay)
    (nodeId : Nat) (wayIndex : Nat) : List Path :=
  (List.range way.nodes.length).foldl
    (fun acc i =>
      if (nget way.nodes i).id = nodeId then
        let back :=
          if 0 < i ∧ ¬ way.oneway then
            match scanBwd nwm way.nodes (i - 1) with
            | some j =>
                [mkPath way wayIndex (nget way.nodes j)
                  (segDistance gd way.nodes j i)]
            | none => []
          else []
        let fwd :=
          if i + 1 < way.nodes.length then
            match scanFwd nwm way.nodes (way.nodes.length - (i + 1)) (i + 1) with
            | some j =>
                [mkPath way wayIndex (nget way.nodes j)
                  (segDistance gd way.nodes i j)]
            | none => []
          else []
        acc ++ back ++ fwd
      else acc)
    []

/-- Dispatch over the three topology branches (GenRouteDat.cpp:576-849):
area way, closed non-area way (first node id equals last node id), open
way. -/
def wayPaths (nwm : Nat → Bool) (gd : Point → Point → Int) (way : GenWay)
    (nodeId : Nat) (wayIndex : Nat) : List Path :=
  if way.area then
    ringPaths nwm gd way nodeId wayIndex true
  else if (nget way.nodes 0).id = (nget way.nodes (way.nodes.length - 1)).id then
    ringPaths nwm gd way nodeId wayIndex (!way.oneway)
  else
    normalPaths nwm gd way nodeId wayIndex

/-- The scan of GenRouteDat.cpp:866-871: the first path index whose way id
(through `ways[wayIndex]`) equals the destination way id, or
`paths.length` when there is none. -/
def findTargetPath (ways : List Nat) (dst : Nat) : List Path → Nat
  | [] => 0
  | p :: rest =>
    if ways.getD p.wayIndex 0 = dst then 0
    else findTargetPath ways dst rest + 1

/-- The restriction resolution of GenRouteDat.cpp:852-880: for every
ordered pair `(src, dst)` of distinct entries of the (sorted) incident
way list, when `CanTurn` denies the turn the first path whose way equals
`dst` becomes an exclude; when no path matches, nothing is appended. -/
def routeNodeExcludes (rs : List Restriction) (incident : List Nat)
    (ways : List Nat) (paths : List Path) : List Exclude :=
  incident.foldl
    (fun acc src =>
      incident.foldl
        (fun acc dst =>
          if src ≠ dst then
            if ¬ CanTurn rs src dst then
              let tp := findTargetPath ways dst paths
              if tp < paths.length then acc ++ [⟨src, tp⟩] else acc
            else acc
          else acc)
        acc)
    []

/-- Handling of one way id of the sorted incident list
(GenRouteDat.cpp:562-850): a way id missing from the loaded map is
reported and skipped *before* the `ways` push (GenRouteDat.cpp:565-572);
otherwise the id is appended to `ways` and the way's paths (carrying
`wayIndex = ways.length - 1`) are emitted. -/
def buildStep (nwm : Nat → Bool) (gd : Point → Point → Int)
    (waysMap : Nat → Option GenWay) (nodeId : Nat)
    (acc : List Nat × List Path) (wayId : Nat) : List Nat × List Path :=
  match waysMap wayId with
  | none => acc
  | some way =>
    let ways := acc.1 ++ [wayId]
    (ways, acc.2 ++ wayPaths nwm gd way nodeId (ways.length - 1))

/-- Construction of one route node (GenRouteDat.cpp:549-880): sort the
junction's incident way list ascending (`std::list::sort` keeps
duplicates and is stable; on plain ids every sorted permutation is the
same list, so `insertionSort` coincides), fold `buildStep` over the
sorted list, then resolve the turn restrictions keyed by the junction id
into excludes (absent key: no excludes). -/
def buildRouteNode (nwm : Nat → Bool) (gd : Point → Point → Int)
    (waysMap : Nat → Option GenWay)
    (restrictions : Nat → Option (List Restriction))
    (nodeId : Nat) (incident : List Nat) : RouteNode :=
  let sorted := incident.insertionSort (· ≤ ·)
  let wp := sorted.foldl (buildStep nwm gd waysMap nodeId) ([], [])
  let excludes :=
    match restrictions nodeId with
    | none => []
    | some rs => routeNodeExcludes rs sorted wp.1 wp.2
  ⟨nodeId, wp.1, wp.2, excludes⟩

/-- Membership test for `nodeWayMap` — the `find(...) != end()` queries of
the path walks use the same map the blocks are drawn from. -/
def inNodeWayMap (entries : List (Nat × List Nat)) (nid : Nat) : Bool :=
  entries.any (fun e => e.1 == nid)

/-- One block iteration of the main loop (GenRouteDat.cpp:493-891): the
union of the block's incident way ids is collected first; when that
union is empty the whole block is skipped by `continue`
(GenRouteDat.cpp:525-527) — the union is empty iff every incident list of
the block is empty — otherwise every junction of the block produces one
written route node. -/
def processBlock (nwm : Nat → Bool) (gd : Point → Point → Int)
    (waysMap : Nat → Option GenWay)
    (restrictions : Nat → Option (List Restriction))
    (blk : List (Nat × List Nat)) : List RouteNode :=
  if blk.all (fun e => e.2.isEmpty) then []
  else blk.map (fun e => buildRouteNode nwm gd waysMap restrictions e.1 e.2)

/-- Split a list into consecutive blocks of size `k` (the filling loop of
GenRouteDat.cpp:497-508 with `k = routeNodeBlockSize`). The fuel makes
the recursion structural; for `0 < k` it is never exhausted. (For
`k = 0` the C++ loop would not terminate, hence the `0 < k` hypothesis
on the theorems below.) -/
def chunkAux (k : Nat) : Nat → List α → List (List α)
  | 0, _ => []
  | _, [] => []
  | fuel + 1, l => l.take k :: chunkAux k fuel (l.drop k)

/-- The block decomposition of the node-way map in iteration order. -/
def chunkList (k : Nat) (l : List α) : List (List α) :=
  chunkAux k l.length l

/-- The sequence of route nodes written to `route.dat` by the main loop
of `Import` (GenRouteDat.cpp:490-891), in file order. -/
def importRouteNodes (blockSize : Nat) (gd : Point → Point → Int)
    (waysMap : Nat → Option GenWay)
    (restrictions : Nat → Option (List Restriction))
    (nodeWayMap : List (Nat × List Nat)) : List RouteNode :=
  (chunkList blockSize nodeWayMap).foldl
    (fun acc blk =>
      acc ++ processBlock (inNodeWayMap nodeWayMap) gd waysMap restrictions blk)
    []

/-! ## The `route.dat` writer traffic (GenRouteDat.cpp:482-904) -/

/-- A cell written to `route.dat`: the `uint32` node-count header or one
route node record. -/
inductive FileCell where
  | headerCell : Nat → FileCell
  | recordCell : RouteNode → FileCell
  deriving Repr, DecidableEq

/-- The `FileWriter` as the modelled `Import` uses it: a write position
and the written cells keyed by their offset, later writes shadowing
earlier ones (`FileWriter::Write` advances the position by the written
size, `FileWriter::SetPos` moves it; `util/FileWriter.h`). -/
structure WriterState where
  pos : Nat
  cells : List (Nat × FileCell)
  deriving Repr, DecidableEq

/-- One `Write` call: place the cell at the current position and advance
by its size. The newest write is consed in front, so lookups see it
first (last write wins). -/
def wwrite (size : Nat) (c : FileCell) (s : WriterState) : WriterState :=
  ⟨s.pos + size, (s.pos, c) :: s.cells⟩

/-- What a later reader finds at a file offset. -/
def wread (s : WriterState) (off : Nat) : Option FileCell :=
  (s.cells.find? (fun e => e.1 == off)).map (·.2)

/-- The state right after GenRouteDat.cpp:488: a fresh file with the
placeholder count 0 (`writtenRouteNodeCount` is still 0) at offset 0;
a `uint32` occupies 4 bytes. -/
def routeDatInit : WriterState :=
  wwrite 4 (.headerCell 0) ⟨0, []⟩

/-- The complete write traffic of `Import` on `route.dat`
(GenRouteDat.cpp:488 and 882-899): the placeholder, one record per route
node (each bumping `writtenRouteNodeCount`), then `SetPos(0)` and the
final count. `rsize` abstracts the serialized size of a record. -/
def writeRouteDat (rsize : RouteNode → Nat) (records : List RouteNode) :
    WriterState :=
  let sc := records.foldl
    (fun (st : WriterState × Nat) r =>
      (wwrite (rsize r) (.recordCell r) st.1, st.2 + 1))
    (routeDatInit, 0)
  wwrite 4 (.headerCell sc.2) ⟨0, sc.1.cells⟩

/-- The record cells of a writer state, newest first. -/
def recordCells (s : WriterState) : List RouteNode :=
  s.cells.filterMap (fun e =>
    match e.2 with
    | .recordCell r => some r
    | .headerCell _ => none)

/-! ## LoadWays (GenRouteDat.cpp:348-393) -/

/-- The `FileScanner` state the modelled code observes: read position and
error flag. -/
structure Scanner where
  pos : Nat
  err : Bool
  deriving Repr, DecidableEq

/-- The per-offset loop of `LoadWays` (GenRouteDat.cpp:367-385) over an
abstract `ways.dat`: `readWay off` yields the way stored at offset `off`
together with the scanner position after reading it, or `none` for a
failing read (a failing `SetPos(offset)` is modelled as a failing read at
that offset: both abort with the error flag set). -/
def loadWaysGo (readWay : Nat → Option (GenWay × Nat)) :
    List Nat → Scanner → List GenWay → Bool × Scanner × List GenWay
  | [], s, acc => (true, s, acc)
  | off :: rest, s, acc =>
    let s1 : Scanner := { s with pos := off }
    match readWay off with
    | some (w, npos) => loadWaysGo readWay rest { s1 with pos := npos } (acc ++ [w])
    | none => (false, { s1 with err := true }, acc)

/-- `RouteDataGenerator::LoadWays` (GenRouteDat.cpp:348-393): resolve the
offsets (`none` models a failing `NumericIndex::GetOffsets`), remember
`oldPos` (`GetPos` fails on a scanner already in error), read each way at
its offset, and on success restore the scanner to `oldPos`. Error paths
return without the restoring `SetPos(oldPos)`. -/
def loadWays (readWay : Nat → Option (GenWay × Nat))
    (offsets? : Option (List Nat)) (s : Scanner) :
    Bool × Scanner × List GenWay :=
  match offsets? with
  | none => (false, s, [])
  | some offsets =>
    if s.err then (false, s, [])
    else
      let oldPos := s.pos
      let r := loadWaysGo readWay offsets s []
      if r.1 then (true, { r.2.1 with pos := oldPos }, r.2.2)
      else (false, r.2.1, r.2.2)

/-! ## Node-id serialization of a way (Way.cpp:101-158 and 197-261)

The byte-level variable-length integer encoding is the shared serializer
(`FileWriter::WriteNumber` / `FileScanner::ReadNumber`), a black-box
collaborator; the stream is therefore modelled as the list of numbers
handed to it. The attribute and coordinate sections that precede the id
section are consumed in lockstep by `Way::Read` and involve
floating-point rounding; the id section below is self-contained after
them. -/

/-- The non-zero id count of the scan at Way.cpp:231-245. -/
def wayIdCount (ids : List Nat) : Nat :=
  (ids.filter (fun i => i != 0)).length

/-- One step of the `minId` scan at Way.cpp:234-244: the first non-zero
id seeds the minimum, later non-zero ids lower it. -/
def minIdStep (acc : Option Nat) (i : Nat) : Option Nat :=
  if i ≠ 0 then
    match acc with
    | none => some i
    | some m => some (min m i)
  else acc

/-- The minimum non-zero id of the scan at Way.cpp:231-245 (0 when every
id is 0; the C++ leaves `minId` unset then, and never writes it). -/
def wayMinId (ids : List Nat) : Nat :=
  match ids.foldl minIdStep none with
  | some m => m
  | none => 0

/-- The id section written by `Way::Write` (Way.cpp:247-258): the
non-zero id count; when positive, the minimum non-zero id followed by an
`(index, id - minId)` pair for every non-zero position in order. -/
def writeIds (ids : List Nat) : List Nat :=
  let idCount := wayIdCount ids
  idCount ::
    (if 0 < idCount then
      wayMinId ids ::
        (ids.enum.foldl
          (fun acc p =>
            if p.2 ≠ 0 then acc ++ [p.1, p.2 - wayMinId ids] else acc)
          [])
    else [])

/-- The pair-reading loop of `Way::Read` (Way.cpp:146-154): consume
`idCount` pairs `(index, delta)`, each setting `ids[index] = delta +
minId`. Returns the ids and the unconsumed rest of the stream, `none` on
a truncated stream. -/
def readIdsPairs (minId : Nat) :
    Nat → List Nat → List Nat → Option (List Nat × List Nat)
  | 0, toks, ids => some (ids, toks)
  | k + 1, idx :: d :: toks, ids => readIdsPairs minId k toks (ids.set idx (d + minId))
  | _ + 1, _, _ => none

/-- The id section read by `Way::Read` (Way.cpp:135-155): `ids` is
resized to `nodeCount` entries of 0 (a freshly read way), then the
`idCount` pairs are applied. -/
def readIds (nodeCount : Nat) : List Nat → Option (List Nat × List Nat)
  | [] => none
  | idCount :: rest =>
    if 0 < idCount then
      match rest with
      | minId :: rest2 => readIdsPairs minId idCount rest2 (List.replicate nodeCount 0)
      | [] => none
    else some (List.replicate nodeCount 0, rest)

/-! ## Concrete instances used by counterexamples and witnesses -/

/-- A distance function for concrete runs; no claim constrains distance
values. -/
def gdZero : Point → Point → Int := fun _ _ => 0

/-- A type configuration that routes every type. -/
def permissiveTc : TypeConfig := ⟨0, fun _ => false, fun _ => true⟩

/-- Scenario S3: the closed area way `W2 = [J1, J2, J3, J1]` with
`J1 = 1`, `J2 = 2`, `J3 = 3` and way id 20. -/
def triangleWay : GenWay :=
  ⟨20, 1, true, false, true, 50, [⟨1, 0, 0⟩, ⟨2, 0, 1⟩, ⟨3, 1, 0⟩, ⟨1, 0, 0⟩]⟩

/-- Junction membership for the triangle scenario: J1, J2, J3. -/
def triangleNwm : Nat → Bool := fun n => n == 1 || n == 2 || n == 3

/-- Loaded-way map holding only the triangle way. -/
def triangleWaysMap : Nat → Option GenWay :=
  fun i => if i = 20 then some triangleWay else none

/-- A lollipop: the open way 5 `[1, 2, 3, 2]` visits node 2 twice
(first id 1 ≠ last id 2, so the open-way branch applies). -/
def lollipopWay : GenWay :=
  ⟨5, 1, false, false, true, 50, [⟨1, 0, 0⟩, ⟨2, 0, 1⟩, ⟨3, 0, 2⟩, ⟨2, 0, 1⟩]⟩

/-- Loaded-way map holding only the lollipop way. -/
def lollipopWaysMap : Nat → Option GenWay :=
  fun i => if i = 5 then some lollipopWay else none

/-- The node-way map produced for the lollipop input: node 2 is the only
junction and carries way 5 twice. -/
def lollipopNodeWayMap : List (Nat × List Nat) := [(2, [5, 5])]

/-- An open way containing node 2 between two leaf nodes, used by the
empty-junction block scenario. -/
def plainWay5 : GenWay :=
  ⟨5, 1, false, false, true, 50, [⟨7, 0, 0⟩, ⟨2, 0, 1⟩, ⟨8, 0, 2⟩]⟩

/-- Loaded-way map holding only `plainWay5`. -/
def plainWaysMap : Nat → Option GenWay :=
  fun i => if i = 5 then some plainWay5 else none

/-- A node-way map in which junction 1 has an empty incident list while
junction 2, in the same block, has a non-empty one. -/
def mixedNodeWayMap : List (Nat × List Nat) := [(1, []), (2, [5])]

/-- Three open ways 11, 12, 13 crossing at junction 9 (each flanked by a
junction end so that paths exist). -/
def crossWay (wid tail0 tail1 : Nat) : GenWay :=
  ⟨wid, 1, false, false, true, 50, [⟨tail0, 0, 0⟩, ⟨9, 0, 1⟩, ⟨tail1, 0, 2⟩]⟩

/-- Loaded-way map of the crossing scenario. -/
def crossWaysMap : Nat → Option GenWay :=
  fun i =>
    if i = 11 then some (crossWay 11 100 101)
    else if i = 12 then some (crossWay 12 102 103)
    else if i = 13 then some (crossWay 13 104 105)
    else none

/-- Node-way map of the crossing scenario: junction 9 carries all three
ways; the tail nodes 100/102/104 are junctions of their own way. -/
def crossNodeWayMap : List (Nat × List Nat) :=
  [(9, [11, 12, 13]), (100, [11]), (102, [12]), (104, [13])]

/-- The restriction map of scenario S4: `{from 11, to 12, Forbid}` at
via-node 9. -/
def crossRestrictions : Nat → Option (List Restriction) :=
  fun n => if n = 9 then some [⟨.forbit, 11, 12⟩] else none

/-- A generic closed area way over four ring entries. -/
def quadAreaWay (wid t ms : Nat) (ow hacc : Bool) (q1 q2 q3 q4 : Point) : GenWay :=
  ⟨wid, t, true, ow, hacc, ms, [q1, q2, q3, q4]⟩

/-- A loaded-way map holding a single way. -/
def singleWayMap (wid : Nat) (way : GenWay) : Nat → Option GenWay :=
  fun i => if i = wid then some way else none

/-! ## Theorems -/

theorem canTurnLoop_filter (src dst : Nat) (rs : List Restriction) (d : Bool) :
    canTurnLoop src dst (rs.filter (fun r => r.rfrom = src)) d =
      canTurnLoop src dst rs d := by
  induction rs generalizing d with
  | nil => rfl
  | cons r rest ih =>
    by_cases h : r.rfrom = src
    · simp [canTurnLoop, List.filter, h]
      cases r.rtype <;> simp [canTurnLoop, h] <;>
        by_cases h2 : r.rto = dst <;> simp [h2, ih]
    · simp [canTurnLoop, List.filter, h, ih]

theorem canTurnLoop_all_miss (src dst : Nat) (rs : List Restriction) (d : Bool)
    (h : ∀ r ∈ rs, r.rfrom ≠ src) : canTurnLoop src dst rs d = d := by
  induction rs with
  | nil => rfl
  | cons r rest ih =>
    have hr : r.rfrom ≠ src := h r (by simp)
    simp [canTurnLoop, hr]
    exact ih fun x hx => h x (by simp [hx])

/-- Dropping every restriction whose `from` is not the queried source way
does not change `CanTurn`. -/
theorem CanTurn_filter_from (rs : List Restriction) (src dst : Nat) :
    CanTurn (rs.filter (fun r => r.rfrom = src)) src dst = CanTurn rs src dst := by
  unfold CanTurn
  by_cases hrs : rs.isEmpty
  · simp [List.isEmpty_iff.mp hrs]
  · by_cases hf : (rs.filter (fun r => r.rfrom = src)).isEmpty
    · have hmiss : ∀ r ∈ rs, r.rfrom ≠ src := by
        intro r hr hsrc
        have : r ∈ rs.filter (fun r => r.rfrom = src) := by
          simp [List.mem_filter, hr, hsrc]
        simp [List.isEmpty_iff.mp hf] at this
      simp [hf, hrs, canTurnLoop_all_miss src dst rs true hmiss]
    · simp [hf, hrs, canTurnLoop_filter]

/-- C3: the `CanTurn` laws — the empty restriction list allows every turn,
a single Allow restriction `(a→b)` allows exactly `b` from `a`, a single
Forbid restriction `(a→b)` denies exactly `b` from `a`, and restrictions
whose `from` is not the queried source way never influence the outcome. -/
theorem canTurn_laws (a b c : Nat) (hcb : c ≠ b) :
    CanTurn [] a b = true ∧
    CanTurn [⟨.allow, a, b⟩] a b = true ∧
    CanTurn [⟨.allow, a, b⟩] a c = false ∧
    CanTurn [⟨.forbit, a, b⟩] a b = false ∧
    CanTurn [⟨.forbit, a, b⟩] a c = true ∧
    (∀ rs src dst,
      CanTurn (rs.filter (fun r => r.rfrom = src)) src dst = CanTurn rs src dst) := by
  refine ⟨rfl, ?_, ?_, ?_, ?_, fun rs src dst => CanTurn_filter_from rs src dst⟩
  · simp [CanTurn, canTurnLoop]
  · simp [CanTurn, canTurnLoop, Ne.symm hcb]
  · simp [CanTurn, canTurnLoop]
  · simp [CanTurn, canTurnLoop, Ne.symm hcb]

/-- Witness for `canTurn_laws` at `a = 1`, `b = 2`, `c = 3`. -/
theorem canTurn_laws_wit :
    CanTurn [] 1 2 = true ∧
    CanTurn [⟨.allow, 1, 2⟩] 1 2 = true ∧
    CanTurn [⟨.allow, 1, 2⟩] 1 3 = false ∧
    CanTurn [⟨.forbit, 1, 2⟩] 1 2 = false ∧
    CanTurn [⟨.forbit, 1, 2⟩] 1 3 = true ∧
    (∀ rs src dst,
      CanTurn (rs.filter (fun r => r.rfrom = src)) src dst = CanTurn rs src dst) :=
  canTurn_laws 1 2 3 (by decide)

theorem lastMatchId_concat (p : RelMember → Bool) (ms : List RelMember)
    (m : RelMember) :
    lastMatchId p (ms ++ [m]) = if p m then m.id else lastMatchId p ms := by
  by_cases h : p m <;> simp [lastMatchId, List.filter_append, List.filter, h]

/-- The member scan computes, for each slot, the id of the last matching
member (0 when there is none). -/
theorem scanMembers_eq_last (ms : List RelMember) :
    scanMembers ms =
      (lastMatchId isFromM ms, lastMatchId isViaM ms, lastMatchId isToM ms) := by
  induction ms using List.reverseRecOn with
  | nil => rfl
  | append_singleton ms m ih =>
    rw [scanMembers, List.foldl_append]
    rw [scanMembers] at ih
    rw [ih, lastMatchId_concat, lastMatchId_concat, lastMatchId_concat]
    by_cases hf : isFromM m
    · have hv : isViaM m = false := by
        simp only [isFromM, decide_eq_true_eq] at hf
        simp [isViaM, hf.1]
      have ht : isToM m = false := by
        simp only [isFromM, decide_eq_true_eq] at hf
        simp only [isToM, decide_eq_false_iff_not]
        rintro ⟨-, h2⟩
        rw [hf.2] at h2
        exact absurd h2 (by decide)
      simp [hf, hv, ht]
    · by_cases hv : isViaM m
      · have ht : isToM m = false := by
          simp only [isViaM, decide_eq_true_eq] at hv
          simp [isToM, hv.1]
        simp [hf, hv, ht]
      · by_cases ht : isToM m <;> simp [hf, hv, ht]

/-- C9: for a recognised restriction relation, each of the three slots
takes the value of the **last** matching member in member order
(way/`from`, node/`via`, way/`to`), and the restriction is kept only when
all three resulting values are non-zero. -/
theorem processRelation_last_wins (posR negR : Nat → Bool) (rel : RawRelation)
    (hrec : (posR rel.rtype || negR rel.rtype) = true) :
    processRelation posR negR rel =
      (if lastMatchId isFromM rel.members ≠ 0 ∧
          lastMatchId isViaM rel.members ≠ 0 ∧
          lastMatchId isToM rel.members ≠ 0 then
        some (lastMatchId isViaM rel.members,
              ⟨if posR rel.rtype then .allow else .forbit,
               lastMatchId isFromM rel.members,
               lastMatchId isToM rel.members⟩)
      else none) := by
  rw [processRelation, if_pos hrec, scanMembers_eq_last]

/-- Witness for `processRelation_last_wins`: a relation with two `from`
way-members (ids 10 then 11) — the later one, 11, wins. -/
theorem processRelation_last_wins_wit :
    processRelation (fun t => t == 7) (fun _ => false)
      ⟨7, [⟨.way, 10, "from"⟩, ⟨.way, 11, "from"⟩, ⟨.node, 20, "via"⟩,
           ⟨.way, 30, "to"⟩]⟩ =
      some (20, ⟨.allow, 11, 30⟩) := by
  rw [processRelation_last_wins (fun t => t == 7) (fun _ => false)
      ⟨7, [⟨.way, 10, "from"⟩, ⟨.way, 11, "from"⟩, ⟨.node, 20, "via"⟩,
           ⟨.way, 30, "to"⟩]⟩ (by decide)]
  decide

theorem countWayNodes_spec (nodes : List Point) (m : Nat → Nat) (nid : Nat) :
    countWayNodes m nodes nid =
      m nid + (nodes.filter (fun p => p.id == nid)).length := by
  induction nodes generalizing m with
  | nil => simp [countWayNodes]
  | cons p rest ih =>
    have step : countWayNodes m (p :: rest) =
        countWayNodes (fun nid => if nid = p.id then m nid + 1 else m nid) rest :=
      rfl
    rw [step, ih]
    by_cases h : p.id = nid
    · subst h
      simp [List.filter_cons]
      omega
    · have h' : ¬ nid = p.id := fun e => h e.symm
      simp [List.filter_cons, h, h']

theorem junctionCountMap_spec (tc : TypeConfig) (ways : List GenWay)
    (m : Nat → Nat) (nid : Nat) :
    (ways.foldl
        (fun m w => if isRoutable tc w then countWayNodes m w.nodes else m) m)
        nid =
      m nid + specUseCount tc ways nid := by
  induction ways generalizing m with
  | nil => simp [specUseCount]
  | cons w rest ih =>
    by_cases h : isRoutable tc w
    · simp only [List.foldl_cons, if_pos h]
      rw [ih, countWayNodes_spec]
      simp [specUseCount, List.filter, h]
      omega
    · simp only [List.foldl_cons, if_neg h]
      rw [ih]
      simp [specUseCount, List.filter, h]

/-- C6: `ReadJunctions` emits exactly the node ids whose total appearance
count over all routable ways is at least 2, each appearance counting one
increment (duplicates within a single way included), with ignored and
non-routable ways contributing nothing. -/
theorem readJunctions_iff_count (tc : TypeConfig) (ways : List GenWay)
    (nid : Nat) :
    readJunctions tc ways nid = true ↔ 2 ≤ specUseCount tc ways nid := by
  rw [readJunctions, junctionCountMap, junctionCountMap_spec]
  simp

theorem ringFwdLoop_stop (nwm : Nat → Bool) (gd : Point → Point → Int)
    (nodes : List Point) (c fuel nx : Nat) (d : Int)
    (h : nx = c ∨ nwm (nget nodes nx).id = true) :
    ringFwdLoop nwm gd nodes c fuel nx d = (nx, d) := by
  have hc : ¬ (nx ≠ c ∧ ¬ nwm (nget nodes nx).id) := by
    rcases h with h | h <;> simp [h]
  cases fuel with
  | zero => rfl
  | succ n =>
    simp only [ringFwdLoop]
    rw [if_neg hc]

theorem ringBwdLoop_stop (nwm : Nat → Bool) (gd : Point → Point → Int)
    (nodes : List Point) (c fuel pv : Nat) (d : Int)
    (h : pv = c ∨ nwm (nget nodes pv).id = true) :
    ringBwdLoop nwm gd nodes c fuel pv d = (pv, d) := by
  have hc : ¬ (pv ≠ c ∧ ¬ nwm (nget nodes pv).id) := by
    rcases h with h | h <;> simp [h]
  cases fuel with
  | zero => rfl
  | succ n =>
    simp only [ringBwdLoop]
    rw [if_neg hc]

/-- Ring paths on a four-entry node list when the junction sits at index
0: the forward walk stops at index 1, the backward walk at index 3. -/
theorem ringPaths_quad0 (nwm : Nat → Bool) (gd : Point → Point → Int)
    (way : GenWay) (q1 q2 q3 q4 : Point) (nodeId wI : Nat) (ab : Bool)
    (hnodes : way.nodes = [q1, q2, q3, q4])
    (hidx : findNodeIdx [q1, q2, q3, q4] nodeId = 0)
    (hfn : nwm q2.id = true) (hbn : nwm q4.id = true) :
    ringPaths nwm gd way nodeId wI ab =
      [mkPath way wI q2 (gd q1 q2)] ++
        (if ab then [mkPath way wI q4 (gd q1 q4)] else []) := by
  have g0 : nget [q1, q2, q3, q4] 0 = q1 := rfl
  have g1 : nget [q1, q2, q3, q4] 1 = q2 := rfl
  have g3 : nget [q1, q2, q3, q4] 3 = q4 := rfl
  simp only [ringPaths]
  rw [hnodes, hidx]
  norm_num [g0, g1, g3]
  rw [ringFwdLoop_stop nwm gd [q1, q2, q3, q4] 0 4 1 (gd q1 q2)
        (Or.inr (by rw [g1]; exact hfn))]
  rw [ringBwdLoop_stop nwm gd [q1, q2, q3, q4] 0 4 3 (gd q1 q4)
        (Or.inr (by rw [g3]; exact hbn))]
  cases ab <;> norm_num [g1, g3]

/-- Ring paths on a four-entry node list when the junction sits at index
1: the forward walk stops at index 2, the backward walk at index 0. -/
theorem ringPaths_quad1 (nwm : Nat → Bool) (gd : Point → Point → Int)
    (way : GenWay) (q1 q2 q3 q4 : Point) (nodeId wI : Nat) (ab : Bool)
    (hnodes : way.nodes = [q1, q2, q3, q4])
    (hidx : findNodeIdx [q1, q2, q3, q4] nodeId = 1)
    (hfn : nwm q3.id = true) (hbn : nwm q1.id = true) :
    ringPaths nwm gd way nodeId wI ab =
      [mkPath way wI q3 (gd q2 q3)] ++
        (if ab then [mkPath way wI q1 (gd q2 q1)] else []) := by
  have g0 : nget [q1, q2, q3, q4] 0 = q1 := rfl
  have g1 : nget [q1, q2, q3, q4] 1 = q2 := rfl
  have g2 : nget [q1, q2, q3, q4] 2 = q3 := rfl
  simp only [ringPaths]
  rw [hnodes, hidx]
  norm_num [g0, g1, g2]
  rw [ringFwdLoop_stop nwm gd [q1, q2, q3, q4] 1 4 2 (gd q2 q3)
        (Or.inr (by rw [g2]; exact hfn))]
  rw [ringBwdLoop_stop nwm gd [q1, q2, q3, q4] 1 4 0 (gd q2 q1)
        (Or.inr (by rw [g0]; exact hbn))]
  cases ab <;> norm_num [g0, g2]

/-- Ring paths on a four-entry node list when the junction sits at index
2: the forward walk stops at index 3, the backward walk at index 1. -/
theorem ringPaths_quad2 (nwm : Nat → Bool) (gd : Point → Point → Int)
    (way : GenWay) (q1 q2 q3 q4 : Point) (nodeId wI : Nat) (ab : Bool)
    (hnodes : way.nodes = [q1, q2, q3, q4])
    (hidx : findNodeIdx [q1, q2, q3, q4] nodeId = 2)
    (hfn : nwm q4.id = true) (hbn : nwm q2.id = true) :
    ringPaths nwm gd way nodeId wI ab =
      [mkPath way wI q4 (gd q3 q4)] ++
        (if ab then [mkPath way wI q2 (gd q3 q2)] else []) := by
  have g1 : nget [q1, q2, q3, q4] 1 = q2 := rfl
  have g2 : nget [q1, q2, q3, q4] 2 = q3 := rfl
  have g3 : nget [q1, q2, q3, q4] 3 = q4 := rfl
  simp only [ringPaths]
  rw [hnodes, hidx]
  norm_num [g1, g2, g3]
  rw [ringFwdLoop_stop nwm gd [q1, q2, q3, q4] 2 4 3 (gd q3 q4)
        (Or.inr (by rw [g3]; exact hfn))]
  rw [ringBwdLoop_stop nwm gd [q1, q2, q3, q4] 2 4 1 (gd q3 q2)
        (Or.inr (by rw [g1]; exact hbn))]
  cases ab <;> norm_num [g1, g3]

/-- A route node built from a single incident way reduces to that way's
paths at way index 0, with no excludes when the junction carries no
restrictions. -/
theorem buildRouteNode_single (nwm : Nat → Bool) (gd : Point → Point → Int)
    (way : GenWay) (wid : Nat) (wm : Nat → Option GenWay)
    (hwm : wm wid = some way) (nodeId : Nat) :
    buildRouteNode nwm gd wm (fun _ => none) nodeId [wid] =
      ⟨nodeId, [wid], wayPaths nwm gd way nodeId 0, []⟩ := by
  simp [buildRouteNode, buildStep, List.insertionSort, List.orderedInsert, hwm]

/-- C1 counterexample: in the concrete S3 triangle `[J1, J2, J3, J1] =
[1, 2, 3, 1]` (area way 20, all three ids junctions), the route node
built for `J1 = 1` emits two paths via the way whose target ids are
`[2, 1]` — the backward path leads to `J1` itself, not to a junction
distinct from the node. -/
theorem areaTriangle_cex :
    ((buildRouteNode triangleNwm gdZero triangleWaysMap (fun _ => none)
        1 [20]).paths.map (fun p => p.id)) = [2, 1] ∧
    ¬ (∀ p ∈ (buildRouteNode triangleNwm gdZero triangleWaysMap (fun _ => none)
        1 [20]).paths,
        p.id ≠ (buildRouteNode triangleNwm gdZero triangleWaysMap (fun _ => none)
          1 [20]).id) := by
  decide

/-- C1 amended: in a closed area way `[j1, j2, j3, j1]` whose three node
ids are distinct junctions, the route nodes built for `j2` and `j3` each
emit exactly two paths via the way — forward to the next ring junction
and backward to the previous one, both distinct from the node and from
each other — while the route node for `j1`, whose id occupies both the
first and the last ring position, emits a forward path to `j2` and a
backward path whose target id is `j1` itself (the walk stops at the
duplicated ring-closing entry). -/
theorem areaTriangle_amended (j1 j2 j3 wid t ms : Nat) (ow hacc : Bool)
    (q1 q2 q3 q4 : Point) (gd : Point → Point → Int) (nwm : Nat → Bool)
    (hq1 : q1.id = j1) (hq2 : q2.id = j2) (hq3 : q3.id = j3) (hq4 : q4.id = j1)
    (h12 : j1 ≠ j2) (h13 : j1 ≠ j3) (h23 : j2 ≠ j3)
    (hn1 : nwm j1 = true) (hn2 : nwm j2 = true) (hn3 : nwm j3 = true) :
    ((buildRouteNode nwm gd
        (singleWayMap wid (quadAreaWay wid t ms ow hacc q1 q2 q3 q4))
        (fun _ => none) j2 [wid]).paths.map (fun p => p.id) = [j3, j1]) ∧
    ((buildRouteNode nwm gd
        (singleWayMap wid (quadAreaWay wid t ms ow hacc q1 q2 q3 q4))
        (fun _ => none) j3 [wid]).paths.map (fun p => p.id) = [j1, j2]) ∧
    ((buildRouteNode nwm gd
        (singleWayMap wid (quadAreaWay wid t ms ow hacc q1 q2 q3 q4))
        (fun _ => none) j1 [wid]).paths.map (fun p => p.id) = [j2, j1]) := by
  have hwm : singleWayMap wid (quadAreaWay wid t ms ow hacc q1 q2 q3 q4) wid =
      some (quadAreaWay wid t ms ow hacc q1 q2 q3 q4) := by
    simp [singleWayMap]
  have hw : (quadAreaWay wid t ms ow hacc q1 q2 q3 q4).nodes = [q1, q2, q3, q4] :=
    rfl
  have harea : ∀ nodeId wI,
      wayPaths nwm gd (quadAreaWay wid t ms ow hacc q1 q2 q3 q4) nodeId wI =
        ringPaths nwm gd (quadAreaWay wid t ms ow hacc q1 q2 q3 q4) nodeId wI
          true := by
    intro nodeId wI
    simp [wayPaths, quadAreaWay]
  have b11 : (q1.id == j1) = true := by rw [hq1]; exact beq_self_eq_true j1
  have b22 : (q2.id == j2) = true := by rw [hq2]; exact beq_self_eq_true j2
  have b33 : (q3.id == j3) = true := by rw [hq3]; exact beq_self_eq_true j3
  have b12 : (q1.id == j2) = false := by
    rw [hq1]; exact beq_eq_false_iff_ne.mpr h12
  have b13 : (q1.id == j3) = false := by
    rw [hq1]; exact beq_eq_false_iff_ne.mpr h13
  have b23 : (q2.id == j3) = false := by
    rw [hq2]; exact beq_eq_false_iff_ne.mpr h23
  have hidx1 : findNodeIdx [q1, q2, q3, q4] j1 = 0 := by
    simp [findNodeIdx, List.findIdx_cons, b11]
  have hidx2 : findNodeIdx [q1, q2, q3, q4] j2 = 1 := by
    simp [findNodeIdx, List.findIdx_cons, b12, b22]
  have hidx3 : findNodeIdx [q1, q2, q3, q4] j3 = 2 := by
    simp [findNodeIdx, List.findIdx_cons, b13, b23, b33]
  refine ⟨?_, ?_, ?_⟩
  · rw [buildRouteNode_single nwm gd _ wid _ hwm j2, harea,
      ringPaths_quad1 nwm gd _ q1 q2 q3 q4 j2 0 true hw hidx2
        (by rw [hq3]; exact hn3) (by rw [hq1]; exact hn1)]
    simp [mkPath, hq1, hq3]
  · rw [buildRouteNode_single nwm gd _ wid _ hwm j3, harea,
      ringPaths_quad2 nwm gd _ q1 q2 q3 q4 j3 0 true hw hidx3
        (by rw [hq4]; exact hn1) (by rw [hq2]; exact hn2)]
    simp [mkPath, hq2, hq4]
  · rw [buildRouteNode_single nwm gd _ wid _ hwm j1, harea,
      ringPaths_quad0 nwm gd _ q1 q2 q3 q4 j1 0 true hw hidx1
        (by rw [hq2]; exact hn2) (by rw [hq4]; exact hn1)]
    simp [mkPath, hq2, hq4]

/-- Witness for `areaTriangle_amended` at the concrete S3 triangle. -/
theorem areaTriangle_amended_wit :
    ((buildRouteNode triangleNwm gdZero
        (singleWayMap 20 (quadAreaWay 20 1 50 false true
          ⟨1, 0, 0⟩ ⟨2, 0, 1⟩ ⟨3, 1, 0⟩ ⟨1, 0, 0⟩))
        (fun _ => none) 2 [20]).paths.map (fun p => p.id) = [3, 1]) ∧
    ((buildRouteNode triangleNwm gdZero
        (singleWayMap 20 (quadAreaWay 20 1 50 false true
          ⟨1, 0, 0⟩ ⟨2, 0, 1⟩ ⟨3, 1, 0⟩ ⟨1, 0, 0⟩))
        (fun _ => none) 3 [20]).paths.map (fun p => p.id) = [1, 2]) ∧
    ((buildRouteNode triangleNwm gdZero
        (singleWayMap 20 (quadAreaWay 20 1 50 false true
          ⟨1, 0, 0⟩ ⟨2, 0, 1⟩ ⟨3, 1, 0⟩ ⟨1, 0, 0⟩))
        (fun _ => none) 1 [20]).paths.map (fun p => p.id) = [2, 1]) :=
  areaTriangle_amended 1 2 3 20 1 50 false true
    ⟨1, 0, 0⟩ ⟨2, 0, 1⟩ ⟨3, 1, 0⟩ ⟨1, 0, 0⟩ gdZero triangleNwm
    rfl rfl rfl rfl (by decide) (by decide) (by decide)
    (by decide) (by decide) (by decide)

theorem foldl_append_eq {α β : Type} (l : List α) (f : α → List β)
    (acc : List β) :
    l.foldl (fun acc b => acc ++ f b) acc = acc ++ (l.map f).flatten := by
  induction l generalizing acc <;> simp [*]

/-- Every route node of the import output is built by `buildRouteNode`
from some node-way-map entry. -/
theorem mem_importRouteNodes (blockSize : Nat) (gd : Point → Point → Int)
    (waysMap : Nat → Option GenWay)
    (restrictions : Nat → Option (List Restriction))
    (nodeWayMap : List (Nat × List Nat)) (rn : RouteNode)
    (h : rn ∈ importRouteNodes blockSize gd waysMap restrictions nodeWayMap) :
    ∃ e : Nat × List Nat,
      rn = buildRouteNode (inNodeWayMap nodeWayMap) gd waysMap restrictions
        e.1 e.2 := by
  rw [importRouteNodes, foldl_append_eq] at h
  simp only [List.nil_append, List.mem_flatten, List.mem_map] at h
  obtain ⟨t, ⟨blk, _, rfl⟩, hrn⟩ := h
  rw [processBlock] at hrn
  by_cases hall : blk.all (fun e => e.2.isEmpty)
  · simp [hall] at hrn
  · rw [if_neg (by simpa using hall)] at hrn
    obtain ⟨e, _, rfl⟩ := List.mem_map.mp hrn
    exact ⟨e, rfl⟩

theorem buildFold_ways (nwm : Nat → Bool) (gd : Point → Point → Int)
    (waysMap : Nat → Option GenWay) (nodeId : Nat) (l : List Nat)
    (acc : List Nat × List Path) :
    (l.foldl (buildStep nwm gd waysMap nodeId) acc).1 =
      acc.1 ++ l.filter (fun w => (waysMap w).isSome) := by
  induction l generalizing acc with
  | nil => simp
  | cons x rest ih =>
    rw [List.foldl_cons, List.filter_cons]
    cases hx : waysMap x with
    | none =>
      rw [show buildStep nwm gd waysMap nodeId acc x = acc from by
        simp [buildStep, hx]]
      rw [ih]
      simp [hx]
    | some way =>
      rw [show buildStep nwm gd waysMap nodeId acc x =
          (acc.1 ++ [x],
           acc.2 ++ wayPaths nwm gd way nodeId ((acc.1 ++ [x]).length - 1)) from by
        simp [buildStep, hx]]
      rw [ih]
      simp [hx]

/-- The `ways` list of a built route node is the ascending sort of the
incident list restricted to the ids present in the loaded way map. -/
theorem buildRouteNode_ways (nwm : Nat → Bool) (gd : Point → Point → Int)
    (waysMap : Nat → Option GenWay)
    (restrictions : Nat → Option (List Restriction))
    (nodeId : Nat) (incident : List Nat) :
    (buildRouteNode nwm gd waysMap restrictions nodeId incident).ways =
      (incident.insertionSort (· ≤ ·)).filter (fun w => (waysMap w).isSome) := by
  have := buildFold_ways nwm gd waysMap nodeId
    (incident.insertionSort (· ≤ ·)) ([], [])
  simpa [buildRouteNode] using this

/-- C2 counterexample: the lollipop input — node 2 occurs twice on the
open way 5, so the endpoint mapper lists way 5 twice under junction 2
and the emitted route node's `ways` is `[5, 5]`: sorted, but **not**
strictly ascending. -/
theorem waysStrict_cex :
    readWayEndpoints permissiveTc (readJunctions permissiveTc [lollipopWay])
        [lollipopWay] 2 = [5, 5] ∧
    (importRouteNodes 10 gdZero lollipopWaysMap (fun _ => none)
        lollipopNodeWayMap).map (fun rn => rn.ways) = [[5, 5]] ∧
    ¬ List.Pairwise (· < ·) ([5, 5] : List Nat) := by
  refine ⟨by decide, by decide, by decide⟩

/-- C2 amended: the `ways` list of every emitted route node is sorted
non-decreasing; adjacent equal entries appear exactly when the
junction's incident list carries the same way id more than once (strict
ascent fails on such inputs, as the counterexample shows). -/
theorem waysSorted_amended (blockSize : Nat) (gd : Point → Point → Int)
    (waysMap : Nat → Option GenWay)
    (restrictions : Nat → Option (List Restriction))
    (nodeWayMap : List (Nat × List Nat)) (_hbs : 0 < blockSize)
    (rn : RouteNode)
    (h : rn ∈ importRouteNodes blockSize gd waysMap restrictions nodeWayMap) :
    List.Pairwise (· ≤ ·) rn.ways := by
  obtain ⟨e, rfl⟩ := mem_importRouteNodes blockSize gd waysMap restrictions
    nodeWayMap rn h
  rw [buildRouteNode_ways]
  exact (List.sorted_insertionSort (· ≤ ·) e.2).filter _

/-- Witness for `waysSorted_amended` at the lollipop input. -/
theorem waysSorted_amended_wit :
    List.Pairwise (· ≤ ·)
      ((importRouteNodes 10 gdZero lollipopWaysMap (fun _ => none)
          lollipopNodeWayMap).headD default).ways :=
  waysSorted_amended 10 gdZero lollipopWaysMap (fun _ => none)
    lollipopNodeWayMap (by decide) _ (by decide)

/-- When the target-path scan lands inside `paths`, the found index
carries the sought way id and every earlier index does not. -/
theorem findTargetPath_lt (ways : List Nat) (dst : Nat) (paths : List Path)
    (h : findTargetPath ways dst paths < paths.length) :
    ways.getD (paths.getD (findTargetPath ways dst paths) default).wayIndex 0
        = dst ∧
    ∀ k < findTargetPath ways dst paths,
      ways.getD (paths.getD k default).wayIndex 0 ≠ dst := by
  induction paths with
  | nil => simp [findTargetPath] at h
  | cons p rest ih =>
    by_cases hp : ways.getD p.wayIndex 0 = dst
    · rw [findTargetPath, if_pos hp]
      exact ⟨by simpa using hp, fun k hk => absurd hk (Nat.not_lt_zero k)⟩
    · rw [findTargetPath, if_neg hp] at h ⊢
      have h' : findTargetPath ways dst rest < rest.length := by
        simpa [Nat.succ_lt_succ_iff] using h
      obtain ⟨h1, h2⟩ := ih h'
      refine ⟨by simpa using h1, ?_⟩
      intro k hk
      cases k with
      | zero => simpa using hp
      | succ k' =>
        have : k' < findTargetPath ways dst rest := by omega
        simpa using h2 k' this

/-- Shape of everything the inner destination loop of the exclude
resolution may add to the accumulator. -/
theorem excludeFold_inner_mem (rs : List Restriction) (src : Nat)
    (ways : List Nat) (paths : List Path) (dsts : List Nat)
    (acc : List Exclude) (e : Exclude)
    (h : e ∈ dsts.foldl
      (fun acc dst =>
        if src ≠ dst then
          if ¬ CanTurn rs src dst then
            let tp := findTargetPath ways dst paths
            if tp < paths.length then acc ++ [⟨src, tp⟩] else acc
          else acc
        else acc) acc) :
    e ∈ acc ∨ ∃ dst, src ≠ dst ∧
      e = ⟨src, findTargetPath ways dst paths⟩ ∧
      findTargetPath ways dst paths < paths.length := by
  induction dsts generalizing acc with
  | nil => exact Or.inl h
  | cons d rest ih =>
    rw [List.foldl_cons] at h
    rcases ih _ h with hin | hq
    · by_cases h1 : src ≠ d
      · rw [if_pos h1] at hin
        by_cases h2 : CanTurn rs src d
        · rw [if_neg (by simpa using h2)] at hin
          exact Or.inl hin
        · rw [if_pos (by simpa using h2)] at hin
          by_cases h3 : findTargetPath ways d paths < paths.length
          · rw [if_pos h3] at hin
            rcases List.mem_append.mp hin with hin | hin
            · exact Or.inl hin
            · right
              exact ⟨d, h1, by simpa using hin, h3⟩
          · rw [if_neg h3] at hin
            exact Or.inl hin
      · rw [if_neg h1] at hin
        exact Or.inl hin
    · exact Or.inr hq

/-- Shape of every exclude produced by the restriction resolution. -/
theorem routeNodeExcludes_mem (rs : List Restriction) (incident ways : List Nat)
    (paths : List Path) (e : Exclude)
    (h : e ∈ routeNodeExcludes rs incident ways paths) :
    ∃ dst, e.sourceWay ≠ dst ∧
      e.targetPath = findTargetPath ways dst paths ∧
      e.targetPath < paths.length := by
  rw [routeNodeExcludes] at h
  suffices hgen : ∀ (srcs : List Nat) (acc : List Exclude),
      (∀ x ∈ acc, ∃ dst, x.sourceWay ≠ dst ∧
        x.targetPath = findTargetPath ways dst paths ∧
        x.targetPath < paths.length) →
      ∀ x ∈ srcs.foldl
        (fun acc src =>
          incident.foldl
            (fun acc dst =>
              if src ≠ dst then
                if ¬ CanTurn rs src dst then
                  let tp := findTargetPath ways dst paths
                  if tp < paths.length then acc ++ [⟨src, tp⟩] else acc
                else acc
              else acc)
            acc)
        acc,
      ∃ dst, x.sourceWay ≠ dst ∧
        x.targetPath = findTargetPath ways dst paths ∧
        x.targetPath < paths.length by
    exact hgen incident [] (by simp) e h
  intro srcs
  induction srcs with
  | nil => intro acc hacc x hx; exact hacc x hx
  | cons s rest ih =>
    intro acc hacc x hx
    rw [List.foldl_cons] at hx
    refine ih _ ?_ x hx
    intro y hy
    rcases excludeFold_inner_mem rs s ways paths incident acc y hy with hin | hq
    · exact hacc y hin
    · obtain ⟨dst, h1, h2, h3⟩ := hq
      exact ⟨dst, by simp [h2]; exact h1, by simp [h2], by simp [h2]; exact h3⟩

/-- The excludes of a built route node, expressed through the node's own
`ways` and `paths` (definitional). -/
theorem buildRouteNode_excludes (nwm : Nat → Bool) (gd : Point → Point → Int)
    (waysMap : Nat → Option GenWay)
    (restrictions : Nat → Option (List Restriction))
    (nodeId : Nat) (incident : List Nat) :
    (buildRouteNode nwm gd waysMap restrictions nodeId incident).excludes =
      (match restrictions nodeId with
      | none => []
      | some rs =>
          routeNodeExcludes rs (incident.insertionSort (· ≤ ·))
            (buildRouteNode nwm gd waysMap restrictions nodeId incident).ways
            (buildRouteNode nwm gd waysMap restrictions nodeId incident).paths) :=
  rfl

/-- C4: every exclude of a built route node has a `targetPath` that is a
valid index into `paths`; the way id `ways[paths[targetPath].wayIndex]`
differs from the exclude's `sourceWay`; and `targetPath` is the first
(smallest) path index carrying that way id — an exclude is only appended
when such a matching path exists. -/
theorem exclude_invariant (nwm : Nat → Bool) (gd : Point → Point → Int)
    (waysMap : Nat → Option GenWay)
    (restrictions : Nat → Option (List Restriction))
    (nodeId : Nat) (incident : List Nat) (e : Exclude)
    (h : e ∈ (buildRouteNode nwm gd waysMap restrictions nodeId
      incident).excludes) :
    e.targetPath <
      (buildRouteNode nwm gd waysMap restrictions nodeId incident).paths.length ∧
    (buildRouteNode nwm gd waysMap restrictions nodeId incident).ways.getD
        ((buildRouteNode nwm gd waysMap restrictions nodeId incident).paths.getD
          e.targetPath default).wayIndex 0 ≠ e.sourceWay ∧
    ∀ k < e.targetPath,
      (buildRouteNode nwm gd waysMap restrictions nodeId incident).ways.getD
          ((buildRouteNode nwm gd waysMap restrictions nodeId
            incident).paths.getD k default).wayIndex 0 ≠
        (buildRouteNode nwm gd waysMap restrictions nodeId incident).ways.getD
          ((buildRouteNode nwm gd waysMap restrictions nodeId
            incident).paths.getD e.targetPath default).wayIndex 0 := by
  rw [buildRouteNode_excludes] at h
  cases hres : restrictions nodeId with
  | none => rw [hres] at h; simp at h
  | some rs =>
    rw [hres] at h
    obtain ⟨dst, h1, h2, h3⟩ := routeNodeExcludes_mem rs _ _ _ e h
    obtain ⟨h4, h5⟩ := findTargetPath_lt _ dst _ (h2 ▸ h3)
    rw [← h2] at h4 h5
    refine ⟨h3, ?_, ?_⟩
    · rw [h4]; exact fun hc => h1 hc.symm
    · intro k hk
      rw [h4]
      exact h5 k hk

/-- Witness for `exclude_invariant`: the S4 crossing — ways 11, 12, 13
meet at junction 9, the restriction forbids the turn 11 → 12, and the
route node contains the exclude `{sourceWay 11, targetPath 1}`. -/
theorem exclude_invariant_wit :
    (⟨11, 1⟩ : Exclude) ∈ (buildRouteNode (inNodeWayMap crossNodeWayMap) gdZero
      crossWaysMap crossRestrictions 9 [11, 12, 13]).excludes ∧
    ((1 : Nat) <
      (buildRouteNode (inNodeWayMap crossNodeWayMap) gdZero crossWaysMap
        crossRestrictions 9 [11, 12, 13]).paths.length ∧
    (buildRouteNode (inNodeWayMap crossNodeWayMap) gdZero crossWaysMap
        crossRestrictions 9 [11, 12, 13]).ways.getD
        ((buildRouteNode (inNodeWayMap crossNodeWayMap) gdZero crossWaysMap
          crossRestrictions 9 [11, 12, 13]).paths.getD 1 default).wayIndex 0 ≠ 11 ∧
    ∀ k < (1 : Nat),
      (buildRouteNode (inNodeWayMap crossNodeWayMap) gdZero crossWaysMap
          crossRestrictions 9 [11, 12, 13]).ways.getD
          ((buildRouteNode (inNodeWayMap crossNodeWayMap) gdZero crossWaysMap
            crossRestrictions 9 [11, 12, 13]).paths.getD k default).wayIndex 0 ≠
        (buildRouteNode (inNodeWayMap crossNodeWayMap) gdZero crossWaysMap
            crossRestrictions 9 [11, 12, 13]).ways.getD
          ((buildRouteNode (inNodeWayMap crossNodeWayMap) gdZero crossWaysMap
            crossRestrictions 9 [11, 12, 13]).paths.getD 1 default).wayIndex 0) :=
  ⟨by decide,
   exclude_invariant (inNodeWayMap crossNodeWayMap) gdZero crossWaysMap
     crossRestrictions 9 [11, 12, 13] ⟨11, 1⟩ (by decide)⟩

/-- C5 counterexample: junction 1 has an empty incident-way list but sits
in the same block as junction 2 whose list is `[5]`; the block's way-id
union is non-empty, so no skip occurs and a route node for junction 1
(with empty `ways` and `paths`) **is** written. -/
theorem emptyJunction_cex :
    (importRouteNodes 10 gdZero plainWaysMap (fun _ => none)
        mixedNodeWayMap).map (fun rn => rn.id) = [1, 2] ∧
    (importRouteNodes 10 gdZero plainWaysMap (fun _ => none)
        mixedNodeWayMap).map (fun rn => rn.ways) = [[], [5]] := by
  refine ⟨by decide, by decide⟩

/-- C5 amended: the `wayIds.empty()` skip is per **block**, not per
junction — a block is skipped in its entirety exactly when every
junction in it has an empty incident list; otherwise every junction of
the block, the empty ones included, gets a route node written (the empty
ones with empty `ways` and `paths`). -/
theorem emptyJunction_block (nwm : Nat → Bool) (gd : Point → Point → Int)
    (waysMap : Nat → Option GenWay)
    (restrictions : Nat → Option (List Restriction))
    (blk : List (Nat × List Nat)) :
    (blk.all (fun e => e.2.isEmpty) = true →
      processBlock nwm gd waysMap restrictions blk = []) ∧
    (blk.all (fun e => e.2.isEmpty) = false →
      (processBlock nwm gd waysMap restrictions blk).map (fun rn => rn.id) =
        blk.map (fun e => e.1)) ∧
    (∀ nid, buildRouteNode nwm gd waysMap restrictions nid [] =
      ⟨nid, [], [], []⟩) := by
  refine ⟨fun h => by simp [processBlock, h], fun h => ?_, fun nid => ?_⟩
  · rw [processBlock, if_neg (by simp [h])]
    rw [List.map_map]
    rfl
  · cases hres : restrictions nid <;>
      simp [buildRouteNode, routeNodeExcludes, hres, List.insertionSort]

/-- Witness for `emptyJunction_block` at the mixed block
`[(1, []), (2, [5])]`. -/
theorem emptyJunction_block_wit :
    (processBlock (inNodeWayMap mixedNodeWayMap) gdZero plainWaysMap
        (fun _ => none) mixedNodeWayMap).map (fun rn => rn.id) = [1, 2] := by
  have h := (emptyJunction_block (inNodeWayMap mixedNodeWayMap) gdZero
      plainWaysMap (fun _ => none) mixedNodeWayMap).2.1 (by decide)
  simpa using h

/-- C7: the writer lays down a placeholder header value 0 at offset 0
while no record cell exists yet (`routeDatInit`, the state the record
fold of `writeRouteDat` starts from), and after the last record the
value found at offset 0 is the header cell holding exactly the number of
route-node records written to the file (the file's record cells, stored
newest-first, are precisely the written records). -/
theorem routeDat_header (rsize : RouteNode → Nat) (records : List RouteNode) :
    wread routeDatInit 0 = some (.headerCell 0) ∧
    recordCells routeDatInit = [] ∧
    wread (writeRouteDat rsize records) 0 =
      some (.headerCell records.length) ∧
    recordCells (writeRouteDat rsize records) = records.reverse := by
  have hcount : ∀ (l : List RouteNode) (s : WriterState) (c : Nat),
      (l.foldl
        (fun (st : WriterState × Nat) r =>
          (wwrite (rsize r) (.recordCell r) st.1, st.2 + 1))
        (s, c)).2 = c + l.length := by
    intro l
    induction l with
    | nil => intro s c; simp
    | cons r rest ih =>
      intro s c
      rw [List.foldl_cons, ih]
      simp only [List.length_cons]
      omega
  have hcells : ∀ (l : List RouteNode) (s : WriterState) (c : Nat),
      recordCells
        (l.foldl
          (fun (st : WriterState × Nat) r =>
            (wwrite (rsize r) (.recordCell r) st.1, st.2 + 1))
          (s, c)).1 = l.reverse ++ recordCells s := by
    intro l
    induction l with
    | nil => intro s c; simp
    | cons r rest ih =>
      intro s c
      rw [List.foldl_cons, ih]
      simp [wwrite, recordCells]
  refine ⟨rfl, rfl, ?_, ?_⟩
  · rw [writeRouteDat]
    rw [show (records.foldl
        (fun (st : WriterState × Nat) r =>
          (wwrite (rsize r) (.recordCell r) st.1, st.2 + 1))
        (routeDatInit, 0)).2 = records.length from by rw [hcount]; omega]
    simp [wwrite, wread]
  · rw [writeRouteDat]
    have : recordCells
        (records.foldl
          (fun (st : WriterState × Nat) r =>
            (wwrite (rsize r) (.recordCell r) st.1, st.2 + 1))
          (routeDatInit, 0)).1 = records.reverse := by
      rw [hcells]
      simp [recordCells, routeDatInit, wwrite]
    simp only [wwrite, recordCells] at this ⊢
    simpa using this

theorem loadWaysGo_err (readWay : Nat → Option (GenWay × Nat))
    (offsets : List Nat) (s : Scanner) (acc : List GenWay)
    (h : (loadWaysGo readWay offsets s acc).1 = true) :
    (loadWaysGo readWay offsets s acc).2.1.err = s.err := by
  induction offsets generalizing s acc with
  | nil => rfl
  | cons off rest ih =>
    simp only [loadWaysGo] at h ⊢
    cases hr : readWay off with
    | some p =>
      rw [hr] at h
      obtain ⟨w, npos⟩ := p
      exact ih { s with pos := npos } (acc ++ [w]) h
    | none =>
      rw [hr] at h
      simp at h

/-- C8 counterexample: a failing way read at offset 5 makes `LoadWays`
return `false` with the scanner left at the failed read's offset
(position 5, error flag set) — not at its entry position 0, refuting
"for every set of way ids the position after return equals the position
on entry". -/
theorem loadWays_cex :
    loadWays (fun _ => none) (some [5]) ⟨0, false⟩ = (false, ⟨5, true⟩, []) ∧
    (5 : Nat) ≠ 0 :=
  ⟨rfl, by decide⟩

/-- C8 amended: when `LoadWays` returns success, the scanner's file
position is restored to its entry value and its error flag is unchanged —
the temporary repositioning is invisible to the caller; on the failure
returns (which abort the whole stage) the scanner may remain
repositioned, as the counterexample shows. -/
theorem loadWays_restores (readWay : Nat → Option (GenWay × Nat))
    (offsets? : Option (List Nat)) (s : Scanner)
    (h : (loadWays readWay offsets? s).1 = true) :
    (loadWays readWay offsets? s).2.1.pos = s.pos ∧
    (loadWays readWay offsets? s).2.1.err = s.err := by
  cases offsets? with
  | none => simp [loadWays] at h
  | some offsets =>
    simp only [loadWays] at h ⊢
    by_cases he : s.err
    · rw [if_pos he] at h
      simp at h
    · rw [if_neg he] at h ⊢
      by_cases hr : (loadWaysGo readWay offsets s []).1 = true
      · rw [if_pos hr] at h ⊢
        refine ⟨rfl, ?_⟩
        have := loadWaysGo_err readWay offsets s [] hr
        simpa using this
      · rw [if_neg hr] at h
        simp at h

/-- Witness for `loadWays_restores`: two successful reads, entry position
100 restored. -/
theorem loadWays_restores_wit :
    (loadWays (fun off => some (lollipopWay, off + 3)) (some [4, 9])
        ⟨100, false⟩).2.1.pos = 100 ∧
    (loadWays (fun off => some (lollipopWay, off + 3)) (some [4, 9])
        ⟨100, false⟩).2.1.err = false :=
  loadWays_restores (fun off => some (lollipopWay, off + 3)) (some [4, 9])
    ⟨100, false⟩ (by decide)

theorem minIdFold_le (ids : List Nat) :
    ∀ (acc : Option Nat) (r : Nat), ids.foldl minIdStep acc = some r →
      (∀ v ∈ ids, v ≠ 0 → r ≤ v) ∧ (∀ m, acc = some m → r ≤ m) := by
  induction ids with
  | nil =>
    intro acc r h
    simp only [List.foldl_nil] at h
    refine ⟨by simp, ?_⟩
    intro m hm
    rw [h] at hm
    injection hm with hm
    omega
  | cons i rest ih =>
    intro acc r h
    rw [List.foldl_cons] at h
    obtain ⟨h1, h2⟩ := ih (minIdStep acc i) r h
    constructor
    · intro v hv hv0
      rcases List.mem_cons.mp hv with rfl | hvr
      · have hstep : ∃ m', minIdStep acc v = some m' ∧ m' ≤ v := by
          cases acc with
          | none => exact ⟨v, by simp [minIdStep, hv0], Nat.le_refl v⟩
          | some m =>
            exact ⟨min m v, by simp [minIdStep, hv0], Nat.min_le_right m v⟩
        obtain ⟨m', hm', hle⟩ := hstep
        exact Nat.le_trans (h2 m' hm') hle
      · exact h1 v hvr hv0
    · intro m hm
      subst hm
      by_cases hi : i ≠ 0
      · have hstep : minIdStep (some m) i = some (min m i) := by
          simp [minIdStep, hi]
        exact Nat.le_trans (h2 _ hstep) (Nat.min_le_left m i)
      · have hstep : minIdStep (some m) i = some m := by simp [minIdStep, hi]
        exact h2 m hstep

theorem minIdFold_none (ids : List Nat) :
    ∀ acc, ids.foldl minIdStep acc = none → acc = none ∧ ∀ v ∈ ids, v = 0 := by
  induction ids with
  | nil =>
    intro acc h
    simp only [List.foldl_nil] at h
    exact ⟨h, by simp⟩
  | cons i rest ih =>
    intro acc h
    rw [List.foldl_cons] at h
    obtain ⟨hstep, hrest⟩ := ih _ h
    by_cases hi : i ≠ 0
    · exfalso
      cases acc <;> simp [minIdStep, hi] at hstep
    · have hi0 : i = 0 := by omega
      have heq : minIdStep acc i = acc := by simp [minIdStep, hi]
      rw [heq] at hstep
      refine ⟨hstep, ?_⟩
      intro v hv
      rcases List.mem_cons.mp hv with rfl | hvr
      · exact hi0
      · exact hrest v hvr

/-- The written `minId` is a lower bound of every non-zero id. -/
theorem wayMinId_le (ids : List Nat) (v : Nat) (hv : v ∈ ids) (h0 : v ≠ 0) :
    wayMinId ids ≤ v := by
  cases hf : ids.foldl minIdStep none with
  | none =>
    obtain ⟨-, hall⟩ := minIdFold_none ids none hf
    exact absurd (hall v hv) h0
  | some r =>
    rw [wayMinId, hf]
    exact (minIdFold_le ids none r hf).1 v hv h0

theorem pairFold_eq (m : Nat) (l : List (Nat × Nat)) (acc : List Nat) :
    l.foldl (fun acc p => if p.2 ≠ 0 then acc ++ [p.1, p.2 - m] else acc) acc =
      acc ++
        ((l.filter (fun p => p.2 != 0)).map (fun p => [p.1, p.2 - m])).flatten := by
  induction l generalizing acc with
  | nil => simp
  | cons p rest ih =>
    rw [List.foldl_cons, List.filter_cons]
    by_cases hp : p.2 ≠ 0
    · rw [if_pos hp, ih]
      simp [hp]
    · rw [if_neg hp, ih]
      simp [show p.2 = 0 from by omega]

theorem enumFrom_filter_length (ids : List Nat) :
    ∀ k, ((List.enumFrom k ids).filter (fun p => p.2 != 0)).length =
      wayIdCount ids := by
  induction ids with
  | nil => intro k; rfl
  | cons i rest ih =>
    intro k
    rw [show List.enumFrom k (i :: rest) = (k, i) :: List.enumFrom (k + 1) rest
      from rfl]
    rw [List.filter_cons, wayIdCount, List.filter_cons]
    by_cases hi : (i != 0) = true
    · simpa [hi] using ih (k + 1)
    · have hi0 : (i != 0) = false := by simpa using hi
      simpa [hi0] using ih (k + 1)

theorem setFold_length (ps : List (Nat × Nat)) (base : List Nat) :
    (ps.foldl (fun l p => l.set p.1 p.2) base).length = base.length := by
  induction ps generalizing base with
  | nil => rfl
  | cons p rest ih =>
    rw [List.foldl_cons, ih]
    simp

theorem setFold_not_mem (ps : List (Nat × Nat)) (base : List Nat) (j : Nat)
    (hj : ∀ p ∈ ps, p.1 ≠ j) :
    (ps.foldl (fun l p => l.set p.1 p.2) base)[j]? = base[j]? := by
  induction ps generalizing base with
  | nil => rfl
  | cons p rest ih =>
    rw [List.foldl_cons, ih _ (fun q hq => hj q (by simp [hq]))]
    exact List.getElem?_set_ne (hj p (by simp))

theorem setFold_mem (ps : List (Nat × Nat)) (base : List Nat) (j v : Nat)
    (hnd : (ps.map Prod.fst).Nodup) (hmem : (j, v) ∈ ps)
    (hlt : j < base.length) :
    (ps.foldl (fun l p => l.set p.1 p.2) base)[j]? = some v := by
  induction ps generalizing base with
  | nil => simp at hmem
  | cons p rest ih =>
    rw [List.foldl_cons]
    have hnd2 : (p.1 :: rest.map Prod.fst).Nodup := by
      rw [List.map_cons] at hnd
      exact hnd
    have hnd' := List.nodup_cons.mp hnd2
    rcases List.mem_cons.mp hmem with heq | hmem'
    · have hpj : p.1 = j := by rw [← heq]
      have hjrest : ∀ q ∈ rest, q.1 ≠ j := by
        intro q hq hqj
        apply hnd'.1
        have hq1 : q.1 ∈ rest.map Prod.fst := List.mem_map_of_mem Prod.fst hq
        rw [hqj] at hq1
        rw [hpj]
        exact hq1
      rw [setFold_not_mem rest _ j hjrest, ← heq]
      simp [List.getElem?_set_self, hlt]
    · exact ih _ hnd'.2 hmem' (by simpa using hlt)

theorem setFold_eq (ids : List Nat) :
    (ids.enum.filter (fun p => p.2 != 0)).foldl (fun l p => l.set p.1 p.2)
      (List.replicate ids.length 0) = ids := by
  apply List.ext_getElem?
  intro j
  by_cases hj : j < ids.length
  · rcases hv : ids[j]? with _ | v
    · rw [List.getElem?_eq_none_iff] at hv
      omega
    · by_cases hv0 : v = 0
      · have hnotin : ∀ p ∈ ids.enum.filter (fun p => p.2 != 0), p.1 ≠ j := by
          intro p hp hpj
          have hpe := List.mem_of_mem_filter hp
          have hg : ids[p.1]? = some p.2 := List.mem_enum_iff_getElem?.mp hpe
          rw [hpj, hv] at hg
          injection hg with hg
          have hf := List.of_mem_filter hp
          rw [← hg, hv0] at hf
          simp at hf
        rw [setFold_not_mem _ _ j hnotin, hv0]
        simp [List.getElem?_replicate, hj]
      · have hmem : (j, v) ∈ ids.enum.filter (fun p => p.2 != 0) := by
          rw [List.mem_filter]
          exact ⟨List.mem_enum_iff_getElem?.mpr hv, by simpa using hv0⟩
        have hnd : ((ids.enum.filter (fun p => p.2 != 0)).map Prod.fst).Nodup := by
          have h1 := (List.filter_sublist (l := ids.enum)
            (p := fun p => p.2 != 0)).map Prod.fst
          rw [List.enum_map_fst] at h1
          exact (List.nodup_range _).sublist h1
        rw [setFold_mem _ _ j v hnd hmem (by simp [hj])]
  · have hl : ((ids.enum.filter (fun p => p.2 != 0)).foldl
        (fun l p => l.set p.1 p.2) (List.replicate ids.length 0)).length =
          ids.length := by
      rw [setFold_length]
      simp
    rw [List.getElem?_eq_none (by rw [hl]; omega), List.getElem?_eq_none (by omega)]

theorem readIdsPairs_flat (m : Nat) (ps : List (Nat × Nat)) (extra : List Nat)
    (base : List Nat) :
    readIdsPairs m ps.length
      ((ps.map (fun p => [p.1, p.2 - m])).flatten ++ extra) base =
      some (ps.foldl (fun l p => l.set p.1 (p.2 - m + m)) base, extra) := by
  induction ps generalizing base with
  | nil => simp [readIdsPairs]
  | cons p rest ih =>
    simp only [List.map_cons, List.flatten_cons, List.length_cons,
      List.cons_append, List.append_assoc, List.foldl_cons]
    exact ih (base.set p.1 (p.2 - m + m))

/-- C10: writing a way's node-id vector with `Way::Write` and reading the
resulting stream back with `Way::Read` (with `nodeCount = ids.length`,
i.e. an ids vector as long as the node list) reconstructs the ids
exactly — zero positions read back as zero and every non-zero id is
recovered through the minimum-nonzero-id delta encoding — and consumes
exactly the id section, leaving the rest of the stream untouched. -/
theorem wayIds_roundTrip (ids : List Nat) (extra : List Nat) :
    readIds ids.length (writeIds ids ++ extra) = some (ids, extra) := by
  by_cases hc : 0 < wayIdCount ids
  · have hw : writeIds ids = wayIdCount ids :: wayMinId ids ::
        ((ids.enum.filter (fun p => p.2 != 0)).map
          (fun p => [p.1, p.2 - wayMinId ids])).flatten := by
      simp only [writeIds]
      rw [if_pos hc, pairFold_eq (wayMinId ids) ids.enum []]
      simp
    rw [hw]
    simp only [List.cons_append, readIds]
    rw [if_pos hc]
    have hlen : wayIdCount ids =
        (ids.enum.filter (fun p => p.2 != 0)).length := by
      rw [show ids.enum = List.enumFrom 0 ids from rfl]
      exact (enumFrom_filter_length ids 0).symm
    rw [hlen, readIdsPairs_flat]
    have hext : (ids.enum.filter (fun p => p.2 != 0)).foldl
        (fun l p => l.set p.1 (p.2 - wayMinId ids + wayMinId ids))
        (List.replicate ids.length 0) =
      (ids.enum.filter (fun p => p.2 != 0)).foldl
        (fun l p => l.set p.1 p.2) (List.replicate ids.length 0) := by
      apply List.foldl_ext
      intro b p hp
      have hp2 : p.2 ≠ 0 := by simpa using List.of_mem_filter hp
      have hpm : p.2 ∈ ids := by
        have hg := List.mem_enum_iff_getElem?.mp (List.mem_of_mem_filter hp)
        exact List.getElem?_mem hg
      rw [Nat.sub_add_cancel (wayMinId_le ids p.2 hpm hp2)]
    rw [hext, setFold_eq]
  · have hcnt : wayIdCount ids = 0 := by omega
    have hall : ∀ v ∈ ids, v = 0 := by
      intro v hv
      by_contra hv0
      have hmem : v ∈ ids.filter (fun i => i != 0) :=
        List.mem_filter.mpr ⟨hv, by simpa using hv0⟩
      have : ids.filter (fun i => i != 0) = [] :=
        List.eq_nil_of_length_eq_zero hcnt
      rw [this] at hmem
      simp at hmem
    have hw : writeIds ids = [wayIdCount ids] := by
      simp only [writeIds]
      rw [if_neg hc]
    rw [hw, hcnt]
    rw [show ([0] : List Nat) ++ extra = 0 :: extra from rfl]
    simp only [readIds]
    rw [if_neg (by omega)]
    rw [show List.replicate ids.length 0 = ids from
      (List.eq_replicate_iff.mpr ⟨rfl, hall⟩).symm]

end Osmscout
